import Mathlib

/-!
# Verification of `gds_to_ris.py`

A shallow embedding of the GDS→RIS converter.  Python strings are
modelled as `List Char`; each regular-expression search of the source
is translated into an explicit character-level scan with the exact
semantics of the Python `re` pattern it embeds (search position by
position, greedy/lazy quantifiers, backtracking, `MULTILINE`/`DOTALL`
anchors), as noted at each definition.
-/

/-- Python strings, modelled as character lists. -/
abbrev Str := List Char

/-- Python's `\s` (and `str.strip`) whitespace class, for the ASCII
range relevant here: space, tab, newline, carriage return, vertical
tab, form feed. -/
def isWs (c : Char) : Bool :=
  c = ' ' || c = '\t' || c = '\n' || c = '\r' || c = Char.ofNat 11 || c = Char.ofNat 12

/-- `str.rstrip()`: drop trailing whitespace. -/
def rstrip (s : Str) : Str := (s.reverse.dropWhile isWs).reverse

/-- `str.strip()`: drop leading and trailing whitespace. -/
def pyStrip (s : Str) : Str := rstrip (s.dropWhile isWs)

/-- `re.search` for a pattern of the form `LITERAL ++ REST`: try the
pattern at every position from the left; at a position the literal
marker must match, then `cont` decides whether the rest of the pattern
matches there (returning the captured group).  On failure the search
resumes at the next character position, exactly as `re.search` does. -/
def searchCont (marker : Str) (cont : Str → Option Str) : Str → Option Str
  | [] => none
  | c :: rest =>
    match (if marker.isPrefixOf (c :: rest) then cont ((c :: rest).drop marker.length) else none) with
    | some g => some g
    | none => searchCont marker cont rest

/-- `entry_text.split('\n')[0]`. -/
def firstLine (s : Str) : Str := s.takeWhile (fun c => !(c = '\n'))

/-- `re.match(r'^\d+\.\s+(.+?)$', first_line)`.
`\d+` is greedy and, being followed by `\.`, can only match the
maximal leading digit run; `\s+` is greedy; the lazy `(.+?)$` then
captures everything up to the end of the (newline-free) line, the
greedy `\s+` giving back its last character when nothing is left for
the group (the backtracking singleton branch below). -/
def titleMatch (fl : Str) : Option Str :=
  let ds := fl.takeWhile Char.isDigit
  if ds.isEmpty then none else
  match fl.drop ds.length with
  | '.' :: after =>
    let w := after.takeWhile isWs
    let rest := after.drop w.length
    if w.isEmpty then none
    else if !rest.isEmpty then some rest
    else if 2 ≤ w.length then some [w.getLastD ' ']
    else none
  | _ => none

/-- The lookahead `(?=Organism:|$)` of the abstract pattern, evaluated
on the remaining suffix: without `MULTILINE`, `$` holds only at the
end of the text or just before a final newline. -/
def lookaheadOrg (s : Str) : Bool :=
  "Organism:".data.isPrefixOf s || s.isEmpty || s == ['\n']

/-- The lazy `(.+?)(?=Organism:|$)` tail (with `re.DOTALL`, so `.`
also matches newlines): keep consuming until the lookahead first
holds. -/
def absGo : Str → Str
  | [] => []
  | c :: r => if lookaheadOrg (c :: r) then [] else c :: absGo r

/-- The continuation of `r'\(Submitter supplied\)\s+(.+?)(?=Organism:|$)'`
(with `re.DOTALL`) after the literal marker: greedy `\s+` (at least
one), then the lazy group of at least one character up to the first
lookahead position; when the whitespace run reaches the end of the
text, `\s+` backtracks by one character and the group captures that
single whitespace character. -/
def abstractCont (s : Str) : Option Str :=
  let w := s.takeWhile isWs
  if w.isEmpty then none
  else match s.drop w.length with
    | c :: r => some (c :: absGo r)
    | [] => if 2 ≤ w.length then some [w.getLastD ' '] else none

/-- The continuation of `r'...:\s*(.+?)$'` with `re.MULTILINE` after
the marker: greedy `\s*` (newlines included), then the lazy group runs
to the next newline or the end; when the whitespace run reaches the
end of the text or stops at a newline, `\s*` backtracks to the last
non-newline whitespace character, which becomes the whole group
(stripped away later). -/
def lineCont (s : Str) : Option Str :=
  let w := s.takeWhile isWs
  match s.drop w.length with
  | c :: r => some ((c :: r).takeWhile (fun x => !(x = '\n')))
  | [] =>
    match w.reverse.find? (fun x => !(x = '\n')) with
    | some c => some [c]
    | none => none

/-- The continuation of `r'Platform[s]?:\s*(.+?)$'` after the literal
`Platform`: the greedy optional `[s]?` tries `s:` first, then `:`. -/
def platformCont (s : Str) : Option Str :=
  match s with
  | 's' :: ':' :: r => lineCont r
  | ':' :: r => lineCont r
  | _ => none

/-- A maximal run of non-whitespace characters, `[^\s]+`-style. -/
def takeNonWs (s : Str) : Str := s.takeWhile (fun c => !isWs c)

/-- The group `(ftp://[^\s]+)` tried at the current position: the
literal `ftp://` followed by a non-empty greedy non-whitespace run. -/
def ftpTokenAt (s : Str) : Option Str :=
  if "ftp://".data.isPrefixOf s then
    let run := takeNonWs (s.drop 6)
    if run.isEmpty then none else some ("ftp://".data ++ run)
  else none

/-- The continuation of `r'FTP download:.*?(ftp://[^\s]+)'` after the
marker: the lazy `.*?` advances one character at a time (never across
a newline, there being no `DOTALL`), trying the group at each
position. -/
def lineFtpScan : Str → Option Str
  | [] => none
  | c :: rest =>
    match ftpTokenAt (c :: rest) with
    | some t => some t
    | none => if c = '\n' then none else lineFtpScan rest

/-- The continuation of `r'Accession:\s*(GSE\d+)'` after the marker:
greedy `\s*`, then the literal `GSE` and a non-empty greedy digit
run.  (Backtracking `\s*` cannot help: `G` is not whitespace.) -/
def gseCont (s : Str) : Option Str :=
  let q := s.dropWhile isWs
  if "GSE".data.isPrefixOf q then
    let ds := (q.drop 3).takeWhile Char.isDigit
    if ds.isEmpty then none else some ("GSE".data ++ ds)
  else none

/-- The continuation of `r'ID:\s*(\d+)'` after the marker. -/
def digitsCont (s : Str) : Option Str :=
  let ds := (s.dropWhile isWs).takeWhile Char.isDigit
  if ds.isEmpty then none else some ds

/-- The continuation of `r'SRA Run Selector:\s*(https?://[^\s]+)'`
after the marker: greedy `\s*`, then `https://` (the greedy `s?` tried
first) or `http://`, then a non-empty greedy non-whitespace run. -/
def sraCont (s : Str) : Option Str :=
  let q := s.dropWhile isWs
  if "https://".data.isPrefixOf q then
    let run := takeNonWs (q.drop 8)
    if run.isEmpty then none else some ("https://".data ++ run)
  else if "http://".data.isPrefixOf q then
    let run := takeNonWs (q.drop 7)
    if run.isEmpty then none else some ("http://".data ++ run)
  else none

/-- `re.sub(r'\s*more\.\.\.\s*$', '', abstract)` applied to the
already stripped abstract: remove a final `more...` together with the
whitespace run just before it. -/
def stripMore (a : Str) : Str :=
  if "more...".data.isSuffixOf a then rstrip (a.take (a.length - 7)) else a

/-- The dictionary returned by `parse_gds_entry`. -/
structure FieldSet where
  title : Str
  abstract : Str
  organism : Str
  platform : Str
  ftp_url : Str
  accession : Str
  series_id : Str
  sra_url : Str
deriving DecidableEq, Repr

/-- `match.group(1).strip() if match else ""`. -/
def groupStrip (o : Option Str) : Str :=
  match o with
  | some g => pyStrip g
  | none => []

/-- `parse_gds_entry`: each field is an independent pattern search
over the entry text, missing fields degrading to the empty string. -/
def parse_gds_entry (e : Str) : FieldSet :=
  let title := groupStrip (titleMatch (firstLine e))
  let abstract := stripMore (groupStrip (searchCont "(Submitter supplied)".data abstractCont e))
  let organism := groupStrip (searchCont "Organism:".data lineCont e)
  let platform := groupStrip (searchCont "Platform".data platformCont e)
  let ftp_url := groupStrip (searchCont "FTP download:".data lineFtpScan e)
  let accession := groupStrip (searchCont "Accession:".data gseCont e)
  let series_id := groupStrip (searchCont "ID:".data digitsCont e)
  let sra_url := groupStrip (searchCont "SRA Run Selector:".data sraCont e)
  ⟨title, abstract, organism, platform, ftp_url, accession, series_id, sra_url⟩

/-- The list `ris_lines` built by `create_ris_entry`, in source order:
type line; title line (organism appended in brackets when present)
only when the title is non-empty; up to three author lines for
accession, series id and platform; journal line; DOI line carrying the
ftp url; abstract line with the `(Submitter supplied) ` prefix; URL
line; terminator line; and the final empty element that yields the
blank line between records. -/
def risLines (p : FieldSet) : List Str :=
  ["TY  - JOUR".data]
  ++ (if p.title.isEmpty then [] else
        ["TI  - ".data ++ (p.title ++
          (if p.organism.isEmpty then [] else " [".data ++ p.organism ++ "]".data))])
  ++ (if p.accession.isEmpty then [] else ["AU  - ".data ++ p.accession])
  ++ (if p.series_id.isEmpty then [] else ["AU  - ".data ++ p.series_id])
  ++ (if p.platform.isEmpty then [] else ["AU  - ".data ++ p.platform])
  ++ ["JO  - Gene Expression Omnibus".data]
  ++ (if p.ftp_url.isEmpty then [] else ["DO  - ".data ++ p.ftp_url])
  ++ (if p.abstract.isEmpty then [] else ["AB  - (Submitter supplied) ".data ++ p.abstract])
  ++ (if p.sra_url.isEmpty then [] else ["UR  - ".data ++ p.sra_url])
  ++ ["ER  - ".data, []]

/-- `create_ris_entry`: `"\n".join(ris_lines)`. -/
def create_ris_entry (p : FieldSet) : Str :=
  List.intercalate ['\n'] (risLines p)

/-- `re.split(r'(?=^\d+\.\s+)', content, flags=re.MULTILINE)` splits
at the zero-width positions where a line begins with one or more
digits, a period and a whitespace character; `headerAt s` says such a
header begins right at the start of suffix `s`.  (The greedy `\d+`,
followed by `\.`, can only take the maximal digit run.) -/
def headerAt (s : Str) : Bool :=
  let ds := s.takeWhile Char.isDigit
  !ds.isEmpty &&
    (match s.drop ds.length with
     | '.' :: c :: _ => isWs c
     | _ => false)

/-- The pieces of the `re.split`: `cur` is the reversed text of the
piece being accumulated; a split happens after each newline that is
followed by a header, the newline staying with the preceding piece. -/
def splitAux (cur : Str) : Str → List Str
  | [] => [cur.reverse]
  | c :: rest =>
    if c = '\n' then
      if headerAt rest then (('\n' :: cur).reverse) :: splitAux [] rest
      else splitAux ('\n' :: cur) rest
    else splitAux (c :: cur) rest

/-- All pieces of the `re.split`, including the empty leading piece
that Python produces when the text itself starts with a header
(`^` also matches at position 0 under `MULTILINE`). -/
def splitRaw (s : Str) : List Str :=
  if headerAt s then [] :: splitAux [] s else splitAux [] s

/-- `parse_gds_file`, applied to the already-read file content (the
file I/O of the source is outside the shallow embedding):
`entries = [e.strip() for e in re.split(...) if e.strip()]`. -/
def parse_gds_file (content : Str) : List Str :=
  ((splitRaw content).map pyStrip).filter (fun e => !e.isEmpty)

/-- The pure core of `main`: each split entry is parsed and formatted,
and the records are joined with a single newline
(`"\n".join(ris_entries)`); this is exactly the text written to the
output file. -/
def mainOutput (content : Str) : Str :=
  List.intercalate ['\n']
    ((parse_gds_file content).map (fun entry => create_ris_entry (parse_gds_entry entry)))

/-- The number of split positions strictly inside the text: newlines
followed by a header line. -/
def countSplits : Str → Nat
  | [] => 0
  | c :: rest => (if c = '\n' && headerAt rest then 1 else 0) + countSplits rest

/-- The number of well-formed record headers in the text: one at
position 0 when the text starts with a header, plus one for every
newline followed by a header. -/
def headerCount (s : Str) : Nat :=
  (if headerAt s then 1 else 0) + countSplits s

/-- No interior line of the text begins with a record header. -/
def noInnerHeader : Str → Bool
  | [] => true
  | c :: rest => !(c = '\n' && headerAt rest) && noInnerHeader rest

/-- The pattern occurs as a substring (at any position). -/
def containsSub (pat : Str) : Str → Bool
  | [] => pat.isPrefixOf []
  | c :: r => pat.isPrefixOf (c :: r) || containsSub pat r

/-! ## Specification-level models of the ftp_url rule (claim C4)

The spec describes the ftp_url field as "the first substring starting
with `ftp://` and continuing until whitespace, found anywhere after a
`FTP download:` marker".  `specFtpAnywhere` renders those words
literally; `specFtpSameLine` is the same rule restricted to the line
of the marker, stated over the line decomposition of the entry rather
than over the character scan of the code. -/

/-- The remainder of the text after the first occurrence of the
marker, if the marker occurs at all. -/
def afterFirstMarker (marker : Str) : Str → Option Str
  | [] => none
  | c :: r =>
    if marker.isPrefixOf (c :: r) then some ((c :: r).drop marker.length)
    else afterFirstMarker marker r

/-- The first `ftp://`-token (with a non-empty non-whitespace
continuation) anywhere in the text. -/
def firstFtpTokenIn : Str → Option Str
  | [] => none
  | c :: r =>
    match ftpTokenAt (c :: r) with
    | some t => some t
    | none => firstFtpTokenIn r

/-- The spec's words for the ftp_url rule, taken literally: the first
`ftp://`-token found anywhere (newlines included) after the first
`FTP download:` marker; empty when there is no marker or no token. -/
def specFtpAnywhere (s : Str) : Str :=
  match afterFirstMarker "FTP download:".data s with
  | some rest =>
    match firstFtpTokenIn rest with
    | some t => t
    | none => []
  | none => []

/-- The lines of the text, split on `'\n'` (like `str.split('\n')`). -/
def linesOf : Str → List Str
  | [] => [[]]
  | c :: r =>
    if c = '\n' then [] :: linesOf r
    else
      match linesOf r with
      | [] => [[c]]
      | l :: ls => (c :: l) :: ls

/-- The spec rule applied to one line: the first `ftp://`-token after
the first `FTP download:` marker of the line. -/
def specLineFtp (l : Str) : Option Str :=
  match afterFirstMarker "FTP download:".data l with
  | some rest => firstFtpTokenIn rest
  | none => none

/-- The amended spec rule: the first line that holds an
`ftp://`-token after a `FTP download:` marker of that same line
determines the field; empty when no line does. -/
def specFtpSameLine (s : Str) : Str :=
  match ((linesOf s).filterMap specLineFtp) with
  | t :: _ => t
  | [] => []

/-- The concrete entry text of the round-trip scenario (claim C1). -/
def c1Entry : Str :=
  "1. Sample Title\nOrganism: Mus musculus\n(Submitter supplied) Some text more...\nAccession: GSE12345\nID: 67890\nPlatforms: GPL1\nFTP download: ftp://example.com/path\nSRA Run Selector: https://example.com/sra".data

/-- What the code actually extracts as the abstract of `c1Entry`:
`Organism:` does not occur after the `(Submitter supplied)` marker, so
the lazy `DOTALL` group runs to the end of the entry, and the final
`more...` removal does not fire because the text does not end with
`more...`. -/
def c1Abstract : Str :=
  "Some text more...\nAccession: GSE12345\nID: 67890\nPlatforms: GPL1\nFTP download: ftp://example.com/path\nSRA Run Selector: https://example.com/sra".data

example :
    parse_gds_entry "1. Sample Title\nOrganism: Mus musculus\n(Submitter supplied) Some text more...\nAccession: GSE12345\nID: 67890\nPlatforms: GPL1\nFTP download: ftp://example.com/path\nSRA Run Selector: https://example.com/sra".data
    = ⟨"Sample Title".data,
       "Some text more...\nAccession: GSE12345\nID: 67890\nPlatforms: GPL1\nFTP download: ftp://example.com/path\nSRA Run Selector: https://example.com/sra".data,
       "Mus musculus".data, "GPL1".data,
       "ftp://example.com/path".data, "GSE12345".data, "67890".data,
       "https://example.com/sra".data⟩ := by decide

example : parse_gds_file "1. A\n2. B".data = ["1. A".data, "2. B".data] := by decide

example : parse_gds_file "hello".data = ["hello".data] := by decide

example :
    mainOutput "1. A\n2. B".data
    = "TY  - JOUR\nTI  - A\nJO  - Gene Expression Omnibus\nER  - \n\nTY  - JOUR\nTI  - B\nJO  - Gene Expression Omnibus\nER  - \n".data := by decide

/-! ## Helper lemmas -/

theorem digit_not_ws {c : Char} (h : c.isDigit = true) : isWs c = false := by
  cases hw : isWs c with
  | false => rfl
  | true =>
    exfalso
    simp only [isWs, Bool.or_eq_true, decide_eq_true_eq] at hw
    rcases hw with ((((rfl | rfl) | rfl) | rfl) | rfl) | rfl <;> exact absurd h (by decide)

theorem digit_ne_nl {c : Char} (h : c.isDigit = true) : ¬(c = '\n') := by
  intro hc; subst hc; exact absurd h (by decide)

theorem dropWhile_all_neg {p : Char → Bool} {l : Str} (h : ∀ c ∈ l, p c = false) :
    l.dropWhile p = l := by
  cases l with
  | nil => rfl
  | cons a r => exact List.dropWhile_cons_of_neg (by simp [h a (by simp)])

theorem mem_pyStrip {c : Char} {l : Str} (h : c ∈ pyStrip l) : c ∈ l := by
  unfold pyStrip rstrip at h
  rw [List.mem_reverse] at h
  have h1 := (List.dropWhile_sublist (l := (l.dropWhile isWs).reverse) isWs).mem h
  rw [List.mem_reverse] at h1
  exact (List.dropWhile_sublist (l := l) isWs).mem h1

theorem pyStrip_eq_self {l : Str} (h : ∀ c ∈ l, isWs c = false) : pyStrip l = l := by
  unfold pyStrip rstrip
  rw [dropWhile_all_neg h, dropWhile_all_neg (by simpa using h), List.reverse_reverse]

theorem pyStrip_ne_nil_of_digit {d : Char} {r : Str} (hd : d.isDigit = true) :
    pyStrip (d :: r) ≠ [] := by
  unfold pyStrip rstrip
  intro h
  rw [List.dropWhile_cons_of_neg (by simp [digit_not_ws hd])] at h
  have h2 : (d :: r).reverse.dropWhile isWs = [] := by
    simpa using h
  have h3 := List.dropWhile_eq_nil_iff.mp h2 d (by simp)
  rw [digit_not_ws hd] at h3
  exact Bool.false_ne_true h3

/-! ## Claim C1 (corrected) -/

/-- C1, counterexample: on the round-trip entry the claimed FieldSet
is wrong — the extracted abstract is not `"Some text"`.  In this entry
`Organism:` occurs before, not after, the `(Submitter supplied)`
marker, so the lookahead `(?=Organism:|$)` of the `DOTALL` abstract
pattern only succeeds at the end of the text and the lazy group
captures everything up to it; the trailing-`more...` removal then does
not fire because the capture does not end with `more...`. -/
theorem c1_abstract_counterexample :
    (parse_gds_entry c1Entry).abstract ≠ "Some text".data := by decide

/-- C1, amended: on the round-trip entry the Extractor returns
title=`Sample Title`, organism=`Mus musculus`, accession=`GSE12345`,
series_id=`67890`, platform=`GPL1`, ftp_url=`ftp://example.com/path`,
sra_url=`https://example.com/sra` exactly as claimed, but
abstract=`c1Abstract` (the whole text following the submitter marker,
`more...` not stripped); the Formatter output consists of the title
line with ` [Mus musculus]` appended, the three author lines
(GSE12345, 67890, GPL1), the ftp identifier (DO) line, the abstract
(AB) line prefixed with the submitter marker and carrying that full
abstract, and the SRA URL line, between the constant type, journal,
terminator and blank lines. -/
theorem c1_roundtrip :
    parse_gds_entry c1Entry =
      ⟨"Sample Title".data, c1Abstract, "Mus musculus".data, "GPL1".data,
       "ftp://example.com/path".data, "GSE12345".data, "67890".data,
       "https://example.com/sra".data⟩ ∧
    risLines (parse_gds_entry c1Entry) =
      ["TY  - JOUR".data,
       "TI  - Sample Title [Mus musculus]".data,
       "AU  - GSE12345".data,
       "AU  - 67890".data,
       "AU  - GPL1".data,
       "JO  - Gene Expression Omnibus".data,
       "DO  - ftp://example.com/path".data,
       ("AB  - (Submitter supplied) ".data ++ c1Abstract),
       "UR  - https://example.com/sra".data,
       "ER  - ".data, []] := by
  constructor <;> decide

/-! ## Claim C5 (minimal record) -/

/-- C5: for every entry text on which none of the optional markers
matched (abstract, organism, platform, ftp_url, accession, series_id
and sra_url all empty), the Formatter emits exactly the constant type
line, the title line when a title was extracted from the first line,
the constant journal line and the constant terminator line (followed
by the record's blank line, the final empty element) — no other
lines. -/
theorem c5_minimal_record (e : Str)
    (h : (parse_gds_entry e).abstract = [] ∧ (parse_gds_entry e).organism = [] ∧
         (parse_gds_entry e).platform = [] ∧ (parse_gds_entry e).ftp_url = [] ∧
         (parse_gds_entry e).accession = [] ∧ (parse_gds_entry e).series_id = [] ∧
         (parse_gds_entry e).sra_url = []) :
    risLines (parse_gds_entry e) =
      ["TY  - JOUR".data]
      ++ (if (parse_gds_entry e).title.isEmpty then []
          else ["TI  - ".data ++ (parse_gds_entry e).title])
      ++ ["JO  - Gene Expression Omnibus".data, "ER  - ".data, []] := by
  obtain ⟨h1, h2, h3, h4, h5, h6, h7⟩ := h
  simp [risLines, h1, h2, h3, h4, h5, h6, h7]

/-- C5, witness: the entry `"1. Hello"` has no optional marker, and
its record is exactly the minimal one. -/
theorem c5_minimal_record_witness :
    risLines (parse_gds_entry "1. Hello".data) =
      ["TY  - JOUR".data, "TI  - Hello".data,
       "JO  - Gene Expression Omnibus".data, "ER  - ".data, []] := by
  rw [c5_minimal_record "1. Hello".data (by decide)]
  decide

/-! ## Splitter lemmas -/

theorem splitAux_no_split {s : Str} (h : noInnerHeader s = true) :
    ∀ cur, splitAux cur s = [cur.reverse ++ s] := by
  induction s with
  | nil => intro cur; simp [splitAux]
  | cons c rest ih =>
    intro cur
    simp only [noInnerHeader, Bool.and_eq_true, Bool.not_eq_true'] at h
    by_cases hc : c = '\n'
    · subst hc
      have hh : headerAt rest = false := by
        cases hr : headerAt rest with
        | false => rfl
        | true => simpa [hr] using h.1
      simp [splitAux, hh, ih h.2]
    · simp [splitAux, hc, ih h.2]

theorem splitAux_join (s : Str) : ∀ cur, (splitAux cur s).flatten = cur.reverse ++ s := by
  induction s with
  | nil => intro cur; simp [splitAux]
  | cons c rest ih =>
    intro cur
    by_cases hc : c = '\n'
    · subst hc
      by_cases hh : headerAt rest
      · simp [splitAux, hh, ih []]
      · simpa [splitAux, hh] using ih ('\n' :: cur)
    · simpa [splitAux, hc] using ih (c :: cur)

theorem splitAux_length (s : Str) : ∀ cur, (splitAux cur s).length = countSplits s + 1 := by
  induction s with
  | nil => intro cur; simp [splitAux, countSplits]
  | cons c rest ih =>
    intro cur
    by_cases hc : c = '\n'
    · subst hc
      by_cases hh : headerAt rest
      · simp [splitAux, hh, countSplits, ih []]
        omega
      · simp [splitAux, hh, countSplits, ih ('\n' :: cur)]
    · simp [splitAux, hc, countSplits, ih (c :: cur)]

theorem splitAux_head (s : Str) : ∀ cur, ∃ t l, splitAux cur s = (cur.reverse ++ t) :: l := by
  induction s with
  | nil => intro cur; exact ⟨[], [], by simp [splitAux]⟩
  | cons c rest ih =>
    intro cur
    by_cases hc : c = '\n'
    · subst hc
      by_cases hh : headerAt rest
      · exact ⟨['\n'], splitAux [] rest, by simp [splitAux, hh]⟩
      · obtain ⟨t, l, he⟩ := ih ('\n' :: cur)
        refine ⟨'\n' :: t, l, ?_⟩
        rw [show splitAux cur ('\n' :: rest) = splitAux ('\n' :: cur) rest by
              simp [splitAux, hh], he]
        simp
    · obtain ⟨t, l, he⟩ := ih (c :: cur)
      refine ⟨c :: t, l, ?_⟩
      rw [show splitAux cur (c :: rest) = splitAux (c :: cur) rest by simp [splitAux, hc], he]
      simp

theorem headerAt_shape {s : Str} (h : headerAt s = true) :
    ∃ d r, s = d :: r ∧ d.isDigit = true := by
  unfold headerAt at h
  simp only [Bool.and_eq_true, Bool.not_eq_true'] at h
  cases s with
  | nil => simp at h
  | cons a r =>
    refine ⟨a, r, rfl, ?_⟩
    cases ha : a.isDigit with
    | true => rfl
    | false =>
      exfalso
      rw [List.takeWhile_cons_of_neg (by simp [ha])] at h
      simp at h

theorem splitAux_head_digit {s : Str} (h : headerAt s = true) :
    ∃ d t l, splitAux [] s = (d :: t) :: l ∧ d.isDigit = true := by
  obtain ⟨d, r, rfl, hd⟩ := headerAt_shape h
  obtain ⟨t, l, he⟩ := splitAux_head r [d]
  exact ⟨d, t, l, by rw [show splitAux [] (d :: r) = splitAux [d] r by
    simp [splitAux, digit_ne_nl hd], he]; simp, hd⟩

theorem splitAux_tail_digit (s : Str) :
    ∀ cur p, p ∈ (splitAux cur s).tail → ∃ d r, p = d :: r ∧ d.isDigit = true := by
  induction s with
  | nil => intro cur p hp; simp [splitAux] at hp
  | cons c rest ih =>
    intro cur p hp
    by_cases hc : c = '\n'
    · subst hc
      by_cases hh : headerAt rest
      · rw [show splitAux cur ('\n' :: rest) = (('\n' :: cur).reverse) :: splitAux [] rest by
              simp [splitAux, hh]] at hp
        simp only [List.tail_cons] at hp
        obtain ⟨d, t, l, he, hd⟩ := splitAux_head_digit hh
        rw [he] at hp
        rcases List.mem_cons.mp hp with rfl | hp2
        · exact ⟨d, t, rfl, hd⟩
        · exact ih [] p (by rw [he]; simpa using hp2)
      · rw [show splitAux cur ('\n' :: rest) = splitAux ('\n' :: cur) rest by
              simp [splitAux, hh]] at hp
        exact ih ('\n' :: cur) p hp
    · rw [show splitAux cur (c :: rest) = splitAux (c :: cur) rest by simp [splitAux, hc]] at hp
      exact ih (c :: cur) p hp

theorem pyStrip_nil : pyStrip [] = [] := rfl

/-! ## Claim C2 (corrected) -/

/-- C2, counterexample: the text `"hello"` contains no record header,
yet the Splitter returns one entry rather than an empty sequence —
`re.split` on a zero-width lookahead keeps the text before the first
header as a piece, and only pieces that strip to nothing are
dropped. -/
theorem c2_counterexample :
    headerAt "hello".data = false ∧ noInnerHeader "hello".data = true ∧
    parse_gds_file "hello".data ≠ [] := by decide

/-- C2, amended: for input text with no record header anywhere, the
Splitter returns the empty sequence when the text strips to nothing
(empty or whitespace-only input), and otherwise returns exactly one
entry, the stripped text itself. -/
theorem c2_no_header (s : Str) (h1 : headerAt s = false) (h2 : noInnerHeader s = true) :
    parse_gds_file s = if (pyStrip s).isEmpty then [] else [pyStrip s] := by
  have hs : splitRaw s = [s] := by
    simp [splitRaw, h1, splitAux_no_split h2 []]
  simp only [parse_gds_file, hs, List.map_cons, List.map_nil]
  cases he : (pyStrip s).isEmpty <;> simp [List.filter, he]

/-- C2, witness: `"hello"` has no header and strips to itself, so the
Splitter returns it as the single entry. -/
theorem c2_no_header_witness :
    parse_gds_file "hello".data = ["hello".data] := by
  rw [c2_no_header "hello".data (by decide) (by decide)]
  decide

/-! ## Claim C3 (corrected) -/

/-- C3, counterexample: the text `"x\n1. A"` contains exactly one
well-formed record header, but the Splitter returns two entries — the
non-whitespace text before the first header survives as an extra
leading entry. -/
theorem c3_counterexample :
    headerCount "x\n1. A".data = 1 ∧
    (parse_gds_file "x\n1. A".data).length = 2 := by decide

/-- C3, amended: whenever the piece before the first header strips to
nothing (in particular when the text starts at a header or only
whitespace precedes the first header), the Splitter returns exactly
`headerCount s` entries — one per well-formed header, in input order —
namely the stripped header-anchored spans (the pieces of the split
after the leading piece), and the raw pieces of the split concatenate
back to the original text. -/
theorem c3_split (s : Str) (h : pyStrip ((splitRaw s).headD []) = []) :
    parse_gds_file s = ((splitRaw s).tail).map pyStrip ∧
    (parse_gds_file s).length = headerCount s ∧
    (splitRaw s).flatten = s := by
  by_cases hh : headerAt s
  · have hs : splitRaw s = [] :: splitAux [] s := by simp [splitRaw, hh]
    have hall : ∀ p ∈ splitAux [] s, ∃ d r, p = d :: r ∧ d.isDigit = true := by
      intro p hp
      obtain ⟨d, t, l, he, hd⟩ := splitAux_head_digit hh
      rw [he] at hp
      rcases List.mem_cons.mp hp with rfl | hp2
      · exact ⟨d, t, rfl, hd⟩
      · exact splitAux_tail_digit s [] p (by rw [he]; simpa using hp2)
    have hkeep : (List.map pyStrip (splitAux [] s)).filter (fun e => !e.isEmpty)
        = List.map pyStrip (splitAux [] s) := by
      rw [List.filter_eq_self]
      intro a ha
      obtain ⟨p, hp, rfl⟩ := List.mem_map.mp ha
      obtain ⟨d, r, rfl, hd⟩ := hall p hp
      simpa [List.isEmpty_iff] using pyStrip_ne_nil_of_digit hd
    refine ⟨?_, ?_, ?_⟩
    · simp [parse_gds_file, hs, hkeep, pyStrip_nil, List.filter_cons]
    · simp [parse_gds_file, hs, hkeep, pyStrip_nil, List.filter_cons,
        splitAux_length s [], headerCount, hh]
      omega
    · simp [hs, splitAux_join s []]
  · have hs : splitRaw s = splitAux [] s := by simp [splitRaw, hh]
    obtain ⟨t, l, he⟩ := splitAux_head s []
    simp only [List.reverse_nil, List.nil_append] at he
    have hhead : pyStrip t = [] := by
      rw [hs, he] at h
      simpa using h
    have hkeep : (List.map pyStrip l).filter (fun e => !e.isEmpty) = List.map pyStrip l := by
      rw [List.filter_eq_self]
      intro a ha
      obtain ⟨p, hp, rfl⟩ := List.mem_map.mp ha
      obtain ⟨d, r, rfl, hd⟩ := splitAux_tail_digit s [] p (by rw [he]; simpa using hp)
      simpa [List.isEmpty_iff] using pyStrip_ne_nil_of_digit hd
    refine ⟨?_, ?_, ?_⟩
    · simp [parse_gds_file, hs, he, hhead, hkeep]
    · have hlen : (splitAux [] s).length = countSplits s + 1 := splitAux_length s []
      rw [he] at hlen
      simp only [List.length_cons] at hlen
      simp [parse_gds_file, hs, he, hhead, hkeep, headerCount, hh]
      omega
    · simp [hs, splitAux_join s []]

/-- C3, witness: `"  \n1. A\n2. B"` has two headers and only
whitespace before the first one; the Splitter returns exactly the two
stripped spans, in order. -/
theorem c3_split_witness :
    pyStrip ((splitRaw "  \n1. A\n2. B".data).headD []) = [] ∧
    parse_gds_file "  \n1. A\n2. B".data
      = ((splitRaw "  \n1. A\n2. B".data).tail).map pyStrip ∧
    (parse_gds_file "  \n1. A\n2. B".data).length = headerCount "  \n1. A\n2. B".data ∧
    (splitRaw "  \n1. A\n2. B".data).flatten = "  \n1. A\n2. B".data :=
  ⟨by decide, (c3_split _ (by decide)).1, (c3_split _ (by decide)).2.1,
   (c3_split _ (by decide)).2.2⟩

/-! ## Search lemmas -/

theorem searchCont_some_contains {m : Str} {cont : Str → Option Str} :
    ∀ {s : Str} {g : Str}, searchCont m cont s = some g → containsSub m s = true := by
  intro s
  induction s with
  | nil => intro g h; simp [searchCont] at h
  | cons c rest ih =>
    intro g h
    by_cases hp : m.isPrefixOf (c :: rest)
    · simp [containsSub, hp]
    · simp only [searchCont, hp, if_neg, ite_false] at h
      simp [containsSub, hp, ih h]

theorem searchCont_some_cont {m : Str} {cont : Str → Option Str} :
    ∀ {s : Str} {g : Str}, searchCont m cont s = some g → ∃ s', cont s' = some g := by
  intro s
  induction s with
  | nil => intro g h; simp [searchCont] at h
  | cons c rest ih =>
    intro g h
    by_cases hp : m.isPrefixOf (c :: rest)
    · simp only [searchCont, hp, if_pos] at h
      cases hc : cont ((c :: rest).drop m.length) with
      | some g' => rw [hc] at h; simp at h; exact ⟨_, by rw [hc, h]⟩
      | none => rw [hc] at h; simp at h; exact ih h
    · simp only [searchCont, hp, if_neg, ite_false] at h
      exact ih h

theorem all_pyStrip {p : Char → Bool} {l : Str} (h : l.all p = true) :
    (pyStrip l).all p = true := by
  rw [List.all_eq_true] at h ⊢
  exact fun c hc => h c (mem_pyStrip hc)

theorem lineCont_some {s t : Str} (h : lineCont s = some t) :
    t.all (fun c => !(c = '\n')) = true := by
  unfold lineCont at h
  dsimp only at h
  split at h
  · rename_i c r heq
    simp only [Option.some.injEq] at h
    subst h
    rw [List.all_eq_true]
    intro x hx
    simpa using List.mem_takeWhile_imp hx
  · split at h
    · rename_i c hf
      simp only [Option.some.injEq] at h
      subst h
      simpa using List.find?_some hf
    · exact absurd h (by simp)

theorem platformCont_some {s t : Str} (h : platformCont s = some t) :
    t.all (fun c => !(c = '\n')) = true := by
  unfold platformCont at h
  split at h
  · exact lineCont_some h
  · exact lineCont_some h
  · exact absurd h (by simp)

theorem ftpTokenAt_some {s t : Str} (h : ftpTokenAt s = some t) :
    t.all (fun c => !isWs c) = true := by
  unfold ftpTokenAt at h
  dsimp only at h
  split at h
  · split at h
    · exact absurd h (by simp)
    · simp only [Option.some.injEq] at h
      subst h
      rw [List.all_append, Bool.and_eq_true]
      refine ⟨by decide, ?_⟩
      rw [List.all_eq_true]
      intro x hx
      unfold takeNonWs at hx
      exact List.mem_takeWhile_imp (p := fun c => !isWs c) hx
  · exact absurd h (by simp)

theorem lineFtpScan_some : ∀ {s t : Str}, lineFtpScan s = some t →
    ∃ s', ftpTokenAt s' = some t := by
  intro s
  induction s with
  | nil => intro t h; simp [lineFtpScan] at h
  | cons c rest ih =>
    intro t h
    unfold lineFtpScan at h
    cases hc : ftpTokenAt (c :: rest) with
    | some t' => rw [hc] at h; simp at h; exact ⟨_, by rw [hc, h]⟩
    | none =>
      rw [hc] at h
      simp only at h
      split at h
      · exact absurd h (by simp)
      · exact ih h

theorem gseCont_some {s t : Str} (h : gseCont s = some t) :
    t.all (fun c => !isWs c) = true := by
  unfold gseCont at h
  dsimp only at h
  split at h
  · split at h
    · exact absurd h (by simp)
    · simp only [Option.some.injEq] at h
      subst h
      rw [List.all_append, Bool.and_eq_true]
      refine ⟨by decide, ?_⟩
      rw [List.all_eq_true]
      intro x hx
      exact digit_not_ws (List.mem_takeWhile_imp hx) ▸ by
        simp [digit_not_ws (List.mem_takeWhile_imp hx)]
  · exact absurd h (by simp)

theorem digitsCont_some {s t : Str} (h : digitsCont s = some t) :
    t.all (fun c => !isWs c) = true := by
  unfold digitsCont at h
  dsimp only at h
  split at h
  · exact absurd h (by simp)
  · simp only [Option.some.injEq] at h
    subst h
    rw [List.all_eq_true]
    intro x hx
    simp [digit_not_ws (List.mem_takeWhile_imp hx)]

theorem sraCont_some {s t : Str} (h : sraCont s = some t) :
    t.all (fun c => !isWs c) = true := by
  unfold sraCont at h
  dsimp only at h
  split at h
  · split at h
    · exact absurd h (by simp)
    · simp only [Option.some.injEq] at h
      subst h
      rw [List.all_append, Bool.and_eq_true]
      refine ⟨by decide, ?_⟩
      rw [List.all_eq_true]
      intro x hx
      unfold takeNonWs at hx
      exact List.mem_takeWhile_imp (p := fun c => !isWs c) hx
  · split at h
    · split at h
      · exact absurd h (by simp)
      · simp only [Option.some.injEq] at h
        subst h
        rw [List.all_append, Bool.and_eq_true]
        refine ⟨by decide, ?_⟩
        rw [List.all_eq_true]
        intro x hx
        unfold takeNonWs at hx
        exact List.mem_takeWhile_imp (p := fun c => !isWs c) hx
    · exact absurd h (by simp)

/-! ## Claim C6 (extractor totality) -/

/-- C6: the Extractor is total by construction (it is a function on
all entry texts), and every field of its result is either a matched
value or the empty string: whenever a field is non-empty, the marker
of its pattern actually occurs in the entry (for the title, the first
line actually matches the numbered-header pattern). -/
theorem c6_extractor_total (e : Str) :
    ((parse_gds_entry e).title = [] ∨ (titleMatch (firstLine e)).isSome = true) ∧
    ((parse_gds_entry e).abstract = [] ∨ containsSub "(Submitter supplied)".data e = true) ∧
    ((parse_gds_entry e).organism = [] ∨ containsSub "Organism:".data e = true) ∧
    ((parse_gds_entry e).platform = [] ∨ containsSub "Platform".data e = true) ∧
    ((parse_gds_entry e).ftp_url = [] ∨ containsSub "FTP download:".data e = true) ∧
    ((parse_gds_entry e).accession = [] ∨ containsSub "Accession:".data e = true) ∧
    ((parse_gds_entry e).series_id = [] ∨ containsSub "ID:".data e = true) ∧
    ((parse_gds_entry e).sra_url = [] ∨ containsSub "SRA Run Selector:".data e = true) := by
  refine ⟨?_, ?_, ?_, ?_, ?_, ?_, ?_, ?_⟩
  · cases ht : titleMatch (firstLine e) with
    | none =>
      exact Or.inl (show groupStrip (titleMatch (firstLine e)) = [] by rw [ht]; rfl)
    | some g => exact Or.inr rfl
  · cases hr : searchCont "(Submitter supplied)".data abstractCont e with
    | none =>
      exact Or.inl (show stripMore
        (groupStrip (searchCont "(Submitter supplied)".data abstractCont e)) = [] by
          rw [hr]; rfl)
    | some g => exact Or.inr (searchCont_some_contains hr)
  · cases hr : searchCont "Organism:".data lineCont e with
    | none =>
      exact Or.inl (show groupStrip (searchCont "Organism:".data lineCont e) = [] by
        rw [hr]; rfl)
    | some g => exact Or.inr (searchCont_some_contains hr)
  · cases hr : searchCont "Platform".data platformCont e with
    | none =>
      exact Or.inl (show groupStrip (searchCont "Platform".data platformCont e) = [] by
        rw [hr]; rfl)
    | some g => exact Or.inr (searchCont_some_contains hr)
  · cases hr : searchCont "FTP download:".data lineFtpScan e with
    | none =>
      exact Or.inl (show groupStrip (searchCont "FTP download:".data lineFtpScan e) = [] by
        rw [hr]; rfl)
    | some g => exact Or.inr (searchCont_some_contains hr)
  · cases hr : searchCont "Accession:".data gseCont e with
    | none =>
      exact Or.inl (show groupStrip (searchCont "Accession:".data gseCont e) = [] by
        rw [hr]; rfl)
    | some g => exact Or.inr (searchCont_some_contains hr)
  · cases hr : searchCont "ID:".data digitsCont e with
    | none =>
      exact Or.inl (show groupStrip (searchCont "ID:".data digitsCont e) = [] by
        rw [hr]; rfl)
    | some g => exact Or.inr (searchCont_some_contains hr)
  · cases hr : searchCont "SRA Run Selector:".data sraCont e with
    | none =>
      exact Or.inl (show groupStrip (searchCont "SRA Run Selector:".data sraCont e) = [] by
        rw [hr]; rfl)
    | some g => exact Or.inr (searchCont_some_contains hr)

/-! ## Claim C9 (field shape invariants) -/

/-- C9: for every entry text, the extracted ftp_url, accession,
series_id and sra_url contain no whitespace character, and the
extracted organism and platform contain no newline (each is a
single-line value). -/
theorem c9_field_invariants (e : Str) :
    ((parse_gds_entry e).ftp_url.all (fun c => !isWs c)) = true ∧
    ((parse_gds_entry e).accession.all (fun c => !isWs c)) = true ∧
    ((parse_gds_entry e).series_id.all (fun c => !isWs c)) = true ∧
    ((parse_gds_entry e).sra_url.all (fun c => !isWs c)) = true ∧
    ((parse_gds_entry e).organism.all (fun c => !(c = '\n'))) = true ∧
    ((parse_gds_entry e).platform.all (fun c => !(c = '\n'))) = true := by
  refine ⟨?_, ?_, ?_, ?_, ?_, ?_⟩
  · show (groupStrip (searchCont "FTP download:".data lineFtpScan e)).all _ = true
    cases hr : searchCont "FTP download:".data lineFtpScan e with
    | none => rfl
    | some g =>
      obtain ⟨s', hs'⟩ := searchCont_some_cont hr
      obtain ⟨s2, h2⟩ := lineFtpScan_some hs'
      exact all_pyStrip (ftpTokenAt_some h2)
  · show (groupStrip (searchCont "Accession:".data gseCont e)).all _ = true
    cases hr : searchCont "Accession:".data gseCont e with
    | none => rfl
    | some g =>
      obtain ⟨s', hs'⟩ := searchCont_some_cont hr
      exact all_pyStrip (gseCont_some hs')
  · show (groupStrip (searchCont "ID:".data digitsCont e)).all _ = true
    cases hr : searchCont "ID:".data digitsCont e with
    | none => rfl
    | some g =>
      obtain ⟨s', hs'⟩ := searchCont_some_cont hr
      exact all_pyStrip (digitsCont_some hs')
  · show (groupStrip (searchCont "SRA Run Selector:".data sraCont e)).all _ = true
    cases hr : searchCont "SRA Run Selector:".data sraCont e with
    | none => rfl
    | some g =>
      obtain ⟨s', hs'⟩ := searchCont_some_cont hr
      exact all_pyStrip (sraCont_some hs')
  · show (groupStrip (searchCont "Organism:".data lineCont e)).all _ = true
    cases hr : searchCont "Organism:".data lineCont e with
    | none => rfl
    | some g =>
      obtain ⟨s', hs'⟩ := searchCont_some_cont hr
      exact all_pyStrip (lineCont_some hs')
  · show (groupStrip (searchCont "Platform".data platformCont e)).all _ = true
    cases hr : searchCont "Platform".data platformCont e with
    | none => rfl
    | some g =>
      obtain ⟨s', hs'⟩ := searchCont_some_cont hr
      exact all_pyStrip (platformCont_some hs')

/-! ## Formatter lemmas -/

theorem count_if_chunk {c : Prop} [Decidable c] {v a : Str} (h : (v == a) = false) :
    List.count a (if c then [] else [v]) = 0 := by
  split
  · rfl
  · simp [List.count_cons, h]

theorem filter_if_chunk_pos {f : Str → Bool} {c : Prop} [Decidable c] {v : Str}
    (h : f v = true) :
    List.filter f (if c then [] else [v]) = if c then [] else [v] := by
  split <;> simp [List.filter_cons, h]

theorem filter_if_chunk_neg {f : Str → Bool} {c : Prop} [Decidable c] {v : Str}
    (h : f v = false) :
    List.filter f (if c then [] else [v]) = [] := by
  split <;> simp [List.filter_cons, h]

theorem all_if_chunk {f : Str → Bool} {c : Prop} [Decidable c] {v : Str} (h : f v = true) :
    (if c then [] else [v]).all f = true := by
  split <;> simp [h]

theorem beqTiTy (x : Str) : (("TI  - ".data ++ x) == "TY  - JOUR".data) = false := rfl

theorem beqAuTy (x : Str) : (("AU  - ".data ++ x) == "TY  - JOUR".data) = false := rfl

theorem beqDoTy (x : Str) : (("DO  - ".data ++ x) == "TY  - JOUR".data) = false := rfl

theorem beqAbTy (x : Str) :
    (("AB  - (Submitter supplied) ".data ++ x) == "TY  - JOUR".data) = false := rfl

theorem beqUrTy (x : Str) : (("UR  - ".data ++ x) == "TY  - JOUR".data) = false := rfl

theorem beqTiEr (x : Str) : (("TI  - ".data ++ x) == "ER  - ".data) = false := rfl

theorem beqAuEr (x : Str) : (("AU  - ".data ++ x) == "ER  - ".data) = false := rfl

theorem beqDoEr (x : Str) : (("DO  - ".data ++ x) == "ER  - ".data) = false := rfl

theorem beqAbEr (x : Str) :
    (("AB  - (Submitter supplied) ".data ++ x) == "ER  - ".data) = false := rfl

theorem beqUrEr (x : Str) : (("UR  - ".data ++ x) == "ER  - ".data) = false := rfl

theorem auPfxTi (x : Str) : ("AU  - ".data.isPrefixOf ("TI  - ".data ++ x)) = false := rfl

theorem auPfxAu (x : Str) : ("AU  - ".data.isPrefixOf ("AU  - ".data ++ x)) = true := by
  induction x <;> rfl

theorem auPfxDo (x : Str) : ("AU  - ".data.isPrefixOf ("DO  - ".data ++ x)) = false := rfl

theorem auPfxAb (x : Str) :
    ("AU  - ".data.isPrefixOf ("AB  - (Submitter supplied) ".data ++ x)) = false := rfl

theorem auPfxUr (x : Str) : ("AU  - ".data.isPrefixOf ("UR  - ".data ++ x)) = false := rfl

theorem auPfxTyC : ("AU  - ".data.isPrefixOf "TY  - JOUR".data) = false := rfl

theorem auPfxJoC : ("AU  - ".data.isPrefixOf "JO  - Gene Expression Omnibus".data) = false := rfl

theorem auPfxErC : ("AU  - ".data.isPrefixOf "ER  - ".data) = false := rfl

theorem auPfxNilC : ("AU  - ".data.isPrefixOf ([] : Str)) = false := rfl

theorem tiPfxAu (x : Str) : ("TI  - ".data.isPrefixOf ("AU  - ".data ++ x)) = false := rfl

theorem tiPfxDo (x : Str) : ("TI  - ".data.isPrefixOf ("DO  - ".data ++ x)) = false := rfl

theorem tiPfxAb (x : Str) :
    ("TI  - ".data.isPrefixOf ("AB  - (Submitter supplied) ".data ++ x)) = false := rfl

theorem tiPfxUr (x : Str) : ("TI  - ".data.isPrefixOf ("UR  - ".data ++ x)) = false := rfl

theorem tiPfxTyC : ("TI  - ".data.isPrefixOf "TY  - JOUR".data) = false := rfl

theorem tiPfxJoC : ("TI  - ".data.isPrefixOf "JO  - Gene Expression Omnibus".data) = false := rfl

theorem tiPfxErC : ("TI  - ".data.isPrefixOf "ER  - ".data) = false := rfl

theorem tiPfxNilC : ("TI  - ".data.isPrefixOf ([] : Str)) = false := rfl

/-! ## Claim C7 (formatter structure) -/

/-- C7: for every FieldSet, the Formatter's line list contains exactly
one type-marker line and exactly one terminator line, and its author
(AU) lines are exactly one line each for accession, series_id and
platform when non-empty, in that fixed order, and never a line for an
empty field. -/
theorem c7_formatter_lines (p : FieldSet) :
    List.count "TY  - JOUR".data (risLines p) = 1 ∧
    List.count "ER  - ".data (risLines p) = 1 ∧
    List.filter (fun l => "AU  - ".data.isPrefixOf l) (risLines p) =
      (if p.accession.isEmpty then [] else ["AU  - ".data ++ p.accession])
      ++ (if p.series_id.isEmpty then [] else ["AU  - ".data ++ p.series_id])
      ++ (if p.platform.isEmpty then [] else ["AU  - ".data ++ p.platform]) := by
  refine ⟨?_, ?_, ?_⟩
  · simp only [risLines, List.count_append]
    rw [count_if_chunk (beqTiTy _), count_if_chunk (beqAuTy _), count_if_chunk (beqAuTy _),
        count_if_chunk (beqAuTy _), count_if_chunk (beqDoTy _), count_if_chunk (beqAbTy _),
        count_if_chunk (beqUrTy _)]
    decide
  · simp only [risLines, List.count_append]
    rw [count_if_chunk (beqTiEr _), count_if_chunk (beqAuEr _), count_if_chunk (beqAuEr _),
        count_if_chunk (beqAuEr _), count_if_chunk (beqDoEr _), count_if_chunk (beqAbEr _),
        count_if_chunk (beqUrEr _)]
    decide
  · simp only [risLines, List.filter_append]
    rw [filter_if_chunk_neg (auPfxTi _), filter_if_chunk_pos (auPfxAu _),
        filter_if_chunk_pos (auPfxAu _), filter_if_chunk_pos (auPfxAu _),
        filter_if_chunk_neg (auPfxDo _), filter_if_chunk_neg (auPfxAb _),
        filter_if_chunk_neg (auPfxUr _)]
    simp [List.filter_cons, auPfxTyC, auPfxJoC, auPfxErC, auPfxNilC]

/-! ## Claim C10 (empty title) -/

/-- C10: for every FieldSet whose title is empty, the Formatter emits
no title (TI) line at all, and the organism value is not rendered
anywhere: the output is identical to the output for the same FieldSet
with the organism erased, organism being consulted only inside the
title line. -/
theorem c10_empty_title (p : FieldSet) (h : p.title = []) :
    risLines p = risLines { p with organism := [] } ∧
    ((risLines p).all (fun l => !("TI  - ".data.isPrefixOf l))) = true := by
  constructor
  · simp [risLines, h]
  · simp only [risLines, h, List.isEmpty_nil, if_true, List.nil_append,
      List.all_append, Bool.and_eq_true]
    repeat' apply And.intro
    all_goals first
      | decide
      | (apply all_if_chunk; rfl)

/-- C10, witness: a FieldSet with empty title and non-empty organism
renders identically to the organism-free FieldSet, with no TI line. -/
theorem c10_empty_title_witness :
    risLines ⟨[], [], "Mus musculus".data, [], [], [], [], []⟩ =
      risLines ⟨[], [], [], [], [], [], [], []⟩ ∧
    ((risLines ⟨[], [], "Mus musculus".data, [], [], [], [], []⟩).all
      (fun l => !("TI  - ".data.isPrefixOf l))) = true :=
  c10_empty_title ⟨[], [], "Mus musculus".data, [], [], [], [], []⟩ rfl

/-! ## Driver lemmas -/

theorem icalate_pair (a b : Str) :
    List.intercalate ['\n'] [a, b] = a ++ '\n' :: b := by
  simp [List.intercalate]

theorem icalate_cons2 (sep x y : Str) (t : List Str) :
    List.intercalate sep (x :: y :: t) = x ++ sep ++ List.intercalate sep (y :: t) := by
  simp [List.intercalate]

theorem icalate_append_last (sep : Str) :
    ∀ (l : List Str) (a : Str), l ≠ [] →
      List.intercalate sep (l ++ [a]) = List.intercalate sep l ++ sep ++ a := by
  intro l
  induction l with
  | nil => intro a h; exact absurd rfl h
  | cons x l ih =>
    intro a _
    cases l with
    | nil => simp [List.intercalate]
    | cons y l' =>
      rw [show ((x :: y :: l') ++ [a]) = x :: y :: (l' ++ [a]) from rfl, icalate_cons2,
        show (y :: (l' ++ [a])) = (y :: l') ++ [a] from rfl, ih a (by simp), icalate_cons2]
      simp [List.append_assoc]

theorem risLines_split (p : FieldSet) :
    ∃ front, risLines p = front ++ ["ER  - ".data, []] ∧ front ≠ [] := by
  refine ⟨["TY  - JOUR".data]
    ++ (if p.title.isEmpty then [] else
          ["TI  - ".data ++ (p.title ++
            (if p.organism.isEmpty then [] else " [".data ++ p.organism ++ "]".data))])
    ++ (if p.accession.isEmpty then [] else ["AU  - ".data ++ p.accession])
    ++ (if p.series_id.isEmpty then [] else ["AU  - ".data ++ p.series_id])
    ++ (if p.platform.isEmpty then [] else ["AU  - ".data ++ p.platform])
    ++ ["JO  - Gene Expression Omnibus".data]
    ++ (if p.ftp_url.isEmpty then [] else ["DO  - ".data ++ p.ftp_url])
    ++ (if p.abstract.isEmpty then [] else ["AB  - (Submitter supplied) ".data ++ p.abstract])
    ++ (if p.sra_url.isEmpty then [] else ["UR  - ".data ++ p.sra_url]), ?_, by simp⟩
  simp [risLines, List.append_assoc]

theorem ris_ends_er (p : FieldSet) :
    ∃ b, create_ris_entry p = b ++ "ER  - \n".data := by
  obtain ⟨front, hf, hne⟩ := risLines_split p
  refine ⟨List.intercalate ['\n'] front ++ ['\n'], ?_⟩
  have h1 : front ++ ["ER  - ".data, []] = (front ++ ["ER  - ".data]) ++ [[]] := by simp
  have h2 : "ER  - \n".data = "ER  - ".data ++ ['\n'] := rfl
  rw [create_ris_entry, hf, h1, icalate_append_last _ _ _ (by simp),
    icalate_append_last _ _ _ hne, h2]
  simp [List.append_assoc]

theorem ris_starts_ty (p : FieldSet) :
    ∃ z, create_ris_entry p = "TY  - JOUR".data ++ z := by
  have hr : ∃ rest, risLines p = "TY  - JOUR".data :: rest := ⟨_, rfl⟩
  obtain ⟨rest, hrest⟩ := hr
  rw [create_ris_entry, hrest]
  cases rest with
  | nil => exact ⟨[], by simp [List.intercalate]⟩
  | cons y t =>
    exact ⟨['\n'] ++ List.intercalate ['\n'] (y :: t), by
      rw [icalate_cons2]; simp [List.append_assoc]⟩

/-! ## Claim C8 (two records) -/

/-- C8: whenever the Splitter divides the input into exactly two
entries, the final output text is the first entry's formatted record,
one joining newline, then the second entry's formatted record — each
record computed from its own entry alone, so no field can leak across
records; the first record ends with the terminator line and a
newline, and the second starts with the type line, which makes the
two records separated by exactly one blank line. -/
theorem c8_two_records (content e1 e2 : Str) (h : parse_gds_file content = [e1, e2]) :
    mainOutput content =
      create_ris_entry (parse_gds_entry e1) ++ '\n' :: create_ris_entry (parse_gds_entry e2) ∧
    ("ER  - \n".data.isSuffixOf (create_ris_entry (parse_gds_entry e1))) = true ∧
    ("TY  - JOUR".data.isPrefixOf (create_ris_entry (parse_gds_entry e2))) = true := by
  refine ⟨?_, ?_, ?_⟩
  · have hm : mainOutput content = List.intercalate ['\n']
        [create_ris_entry (parse_gds_entry e1), create_ris_entry (parse_gds_entry e2)] := by
      simp [mainOutput, h]
    rw [hm, icalate_pair]
  · obtain ⟨b, hb⟩ := ris_ends_er (parse_gds_entry e1)
    rw [hb]
    simp
  · obtain ⟨z, hz⟩ := ris_starts_ty (parse_gds_entry e2)
    rw [hz]
    simp

/-- C8, witness: the two-record input `"1. A\n2. B"` splits into the
two entries and yields the two records joined by one newline. -/
theorem c8_two_records_witness :
    parse_gds_file "1. A\n2. B".data = ["1. A".data, "2. B".data] ∧
    mainOutput "1. A\n2. B".data =
      create_ris_entry (parse_gds_entry "1. A".data)
        ++ '\n' :: create_ris_entry (parse_gds_entry "2. B".data) ∧
    ("ER  - \n".data.isSuffixOf (create_ris_entry (parse_gds_entry "1. A".data))) = true ∧
    ("TY  - JOUR".data.isPrefixOf (create_ris_entry (parse_gds_entry "2. B".data))) = true :=
  ⟨by decide,
   (c8_two_records "1. A\n2. B".data "1. A".data "2. B".data (by decide)).1,
   (c8_two_records "1. A\n2. B".data "1. A".data "2. B".data (by decide)).2.1,
   (c8_two_records "1. A\n2. B".data "1. A".data "2. B".data (by decide)).2.2⟩

/-! ## Ftp-scan lemmas (claim C4) -/

theorem pfx_nl {p : Str} (hp : '\n' ∉ p) :
    ∀ (l t : Str), p.isPrefixOf (l ++ '\n' :: t) = p.isPrefixOf l := by
  induction p with
  | nil => intro l t; simp
  | cons a p' ih =>
    intro l t
    cases l with
    | nil =>
      have ha : ¬(a = '\n') := fun h => hp (h ▸ List.mem_cons_self a p')
      simp [List.isPrefixOf, ha]
    | cons b l' =>
      have hp' : '\n' ∉ p' := fun h => hp (List.mem_cons_of_mem a h)
      simp [List.isPrefixOf, ih hp' l' t]

theorem takeNonWs_nl : ∀ (l t : Str), takeNonWs (l ++ '\n' :: t) = takeNonWs l := by
  intro l t
  induction l with
  | nil => rfl
  | cons c r ih =>
    unfold takeNonWs at ih ⊢
    cases hc : isWs c with
    | true => simp [List.takeWhile_cons, hc]
    | false => simp [List.takeWhile_cons, hc, ih]

theorem drop_append_le : ∀ (n : Nat) (l t : Str), n ≤ l.length →
    (l ++ t).drop n = l.drop n ++ t := by
  intro n
  induction n with
  | zero => intro l t _; simp
  | succ n ih =>
    intro l t h
    cases l with
    | nil => simp at h
    | cons c l' => simpa using ih l' t (by simpa using h)

theorem ftpTokenAt_nl (l t : Str) :
    ftpTokenAt (l ++ '\n' :: t) = ftpTokenAt l := by
  unfold ftpTokenAt
  rw [pfx_nl (by decide) l t]
  cases hp : "ftp://".data.isPrefixOf l with
  | false => simp [hp]
  | true =>
    have h6 : "ftp://".data.length ≤ l.length :=
      (List.isPrefixOf_iff_prefix.mp hp).length_le
    simp only [hp, if_true]
    rw [show (6 : Nat) = "ftp://".data.length from rfl,
      drop_append_le _ l ('\n' :: t) h6, takeNonWs_nl]

theorem lineFtpScan_pure : ∀ {l : Str}, '\n' ∉ l → lineFtpScan l = firstFtpTokenIn l := by
  intro l
  induction l with
  | nil => intro _; rfl
  | cons c r ih =>
    intro hl
    have hc : ¬(c = '\n') := fun h => hl (h ▸ List.mem_cons_self c r)
    have hr : '\n' ∉ r := fun h => hl (List.mem_cons_of_mem c h)
    unfold lineFtpScan firstFtpTokenIn
    cases ftpTokenAt (c :: r) with
    | some t => rfl
    | none => simp [hc, ih hr]

theorem lineFtpScan_append : ∀ {l : Str}, '\n' ∉ l → ∀ (t : Str),
    lineFtpScan (l ++ '\n' :: t) = firstFtpTokenIn l := by
  intro l
  induction l with
  | nil =>
    intro _ t
    have h1 : ftpTokenAt ('\n' :: t) = none := rfl
    simp [lineFtpScan, h1, firstFtpTokenIn]
  | cons c r ih =>
    intro hl t
    have hc : ¬(c = '\n') := fun h => hl (h ▸ List.mem_cons_self c r)
    have hr : '\n' ∉ r := fun h => hl (List.mem_cons_of_mem c h)
    rw [show ((c :: r) ++ '\n' :: t) = c :: (r ++ '\n' :: t) from rfl]
    unfold lineFtpScan firstFtpTokenIn
    have htok : ftpTokenAt (c :: (r ++ '\n' :: t)) = ftpTokenAt (c :: r) :=
      ftpTokenAt_nl (c :: r) t
    rw [htok]
    cases ftpTokenAt (c :: r) with
    | some t' => rfl
    | none => simp [hc, ih hr t]

theorem searchCont_cons (m : Str) (cont : Str → Option Str) (c : Char) (rest : Str) :
    searchCont m cont (c :: rest)
      = match (if m.isPrefixOf (c :: rest) then cont ((c :: rest).drop m.length) else none) with
        | some g => some g
        | none => searchCont m cont rest := rfl

theorem searchCont_cons_neg {m : Str} {c : Char} {rest : Str} (cont : Str → Option Str)
    (h : m.isPrefixOf (c :: rest) = false) :
    searchCont m cont (c :: rest) = searchCont m cont rest := by
  rw [searchCont_cons]
  simp [h]

theorem searchCont_cons_pos {m : Str} {c : Char} {rest : Str} (cont : Str → Option Str)
    (h : m.isPrefixOf (c :: rest) = true) :
    searchCont m cont (c :: rest)
      = match cont ((c :: rest).drop m.length) with
        | some g => some g
        | none => searchCont m cont rest := by
  rw [searchCont_cons]
  simp [h]

theorem ftp_search_split : ∀ {l : Str}, '\n' ∉ l → ∀ (t : Str),
    searchCont "FTP download:".data lineFtpScan (l ++ '\n' :: t)
      = match searchCont "FTP download:".data firstFtpTokenIn l with
        | some g => some g
        | none => searchCont "FTP download:".data lineFtpScan t := by
  intro l
  induction l with
  | nil =>
    intro _ t
    have h1 : "FTP download:".data.isPrefixOf ('\n' :: t) = false := rfl
    rw [show (([] : Str) ++ '\n' :: t) = '\n' :: t from rfl,
      searchCont_cons_neg lineFtpScan h1]
    rfl
  | cons c r ih =>
    intro hl t
    have hr : '\n' ∉ r := fun h => hl (List.mem_cons_of_mem c h)
    rw [show ((c :: r) ++ '\n' :: t) = c :: (r ++ '\n' :: t) from rfl]
    have hpfx : "FTP download:".data.isPrefixOf (c :: (r ++ '\n' :: t))
        = "FTP download:".data.isPrefixOf (c :: r) := pfx_nl (by decide) (c :: r) t
    cases hp : "FTP download:".data.isPrefixOf (c :: r) with
    | false =>
      rw [hp] at hpfx
      rw [searchCont_cons_neg lineFtpScan hpfx, searchCont_cons_neg firstFtpTokenIn hp]
      exact ih hr t
    | true =>
      rw [hp] at hpfx
      have h13 : "FTP download:".data.length ≤ (c :: r).length :=
        (List.isPrefixOf_iff_prefix.mp hp).length_le
      have hdrop : (c :: (r ++ '\n' :: t)).drop "FTP download:".data.length
          = (c :: r).drop "FTP download:".data.length ++ '\n' :: t :=
        drop_append_le _ (c :: r) ('\n' :: t) h13
      have hnld : '\n' ∉ (c :: r).drop "FTP download:".data.length :=
        fun h => hl ((List.drop_sublist _ _).mem h)
      rw [searchCont_cons_pos lineFtpScan hpfx, searchCont_cons_pos firstFtpTokenIn hp,
        hdrop, lineFtpScan_append hnld t]
      cases hres : firstFtpTokenIn ((c :: r).drop "FTP download:".data.length) with
      | some g => rfl
      | none =>
        simp only
        exact ih hr t

theorem ftp_search_pure : ∀ {s : Str}, '\n' ∉ s →
    searchCont "FTP download:".data lineFtpScan s
      = searchCont "FTP download:".data firstFtpTokenIn s := by
  intro s
  induction s with
  | nil => intro _; rfl
  | cons c r ih =>
    intro hs
    have hr : '\n' ∉ r := fun h => hs (List.mem_cons_of_mem c h)
    cases hp : "FTP download:".data.isPrefixOf (c :: r) with
    | false =>
      rw [searchCont_cons_neg lineFtpScan hp, searchCont_cons_neg firstFtpTokenIn hp]
      exact ih hr
    | true =>
      have hnld : '\n' ∉ (c :: r).drop "FTP download:".data.length :=
        fun h => hs ((List.drop_sublist _ _).mem h)
      rw [searchCont_cons_pos lineFtpScan hp, searchCont_cons_pos firstFtpTokenIn hp,
        lineFtpScan_pure hnld]
      cases firstFtpTokenIn ((c :: r).drop "FTP download:".data.length) with
      | some g => rfl
      | none => simp only; exact ih hr

theorem fFTI_tail {c : Char} {r : Str} (h : firstFtpTokenIn (c :: r) = none) :
    firstFtpTokenIn r = none := by
  unfold firstFtpTokenIn at h
  cases hc : ftpTokenAt (c :: r) with
  | some t => rw [hc] at h; simp at h
  | none => rw [hc] at h; exact h

theorem fFTI_drop : ∀ {s : Str}, firstFtpTokenIn s = none →
    ∀ n, firstFtpTokenIn (s.drop n) = none := by
  intro s
  induction s with
  | nil => intro _ n; rw [List.drop_nil]; rfl
  | cons c r ih =>
    intro h n
    cases n with
    | zero => exact h
    | succ n => exact ih (fFTI_tail h) n

theorem fFTI_cons_none {c : Char} {r : Str} (h1 : ftpTokenAt (c :: r) = none)
    (h2 : firstFtpTokenIn r = none) : firstFtpTokenIn (c :: r) = none := by
  unfold firstFtpTokenIn
  rw [h1]
  exact h2

theorem ftpTokenAt_ne_f {c : Char} (h : ¬('f' = c)) (x : Str) :
    ftpTokenAt (c :: x) = none := by
  unfold ftpTokenAt
  have hc : "ftp://".data.isPrefixOf (c :: x) = false := by
    simp [List.isPrefixOf, h]
  simp [hc]

theorem fFTI_marker_tail {u : Str} (h : firstFtpTokenIn u = none) :
    firstFtpTokenIn ("TP download:".data ++ u) = none := by
  rw [show ("TP download:".data ++ u)
      = 'T' :: 'P' :: ' ' :: 'd' :: 'o' :: 'w' :: 'n' :: 'l' :: 'o' :: 'a' :: 'd' :: ':' :: u
    from rfl]
  iterate 12 refine fFTI_cons_none (ftpTokenAt_ne_f (by decide) _) ?_
  exact h

theorem searchCont_fFTI_none : ∀ {s : Str}, firstFtpTokenIn s = none →
    searchCont "FTP download:".data firstFtpTokenIn s = none := by
  intro s
  induction s with
  | nil => intro _; rfl
  | cons c r ih =>
    intro h
    cases hp : "FTP download:".data.isPrefixOf (c :: r) with
    | false =>
      rw [searchCont_cons_neg firstFtpTokenIn hp]
      exact ih (fFTI_tail h)
    | true =>
      rw [searchCont_cons_pos firstFtpTokenIn hp, fFTI_drop h _]
      exact ih (fFTI_tail h)

theorem afm_cons (m : Str) (c : Char) (r : Str) :
    afterFirstMarker m (c :: r)
      = if m.isPrefixOf (c :: r) then some ((c :: r).drop m.length)
        else afterFirstMarker m r := rfl

theorem lineSearch_eq_spec : ∀ (l : Str),
    searchCont "FTP download:".data firstFtpTokenIn l = specLineFtp l := by
  intro l
  induction l with
  | nil => rfl
  | cons c r ih =>
    cases hp : "FTP download:".data.isPrefixOf (c :: r) with
    | false =>
      rw [searchCont_cons_neg firstFtpTokenIn hp, ih]
      show specLineFtp r = specLineFtp (c :: r)
      unfold specLineFtp
      rw [afm_cons, hp]
      simp
    | true =>
      rw [searchCont_cons_pos firstFtpTokenIn hp]
      have ha : afterFirstMarker "FTP download:".data (c :: r)
          = some ((c :: r).drop "FTP download:".data.length) := by
        rw [afm_cons, hp]
        simp
      unfold specLineFtp
      rw [ha]
      show (match firstFtpTokenIn ((c :: r).drop "FTP download:".data.length) with
            | some g => some g
            | none => searchCont "FTP download:".data firstFtpTokenIn r)
          = firstFtpTokenIn ((c :: r).drop "FTP download:".data.length)
      cases hres : firstFtpTokenIn ((c :: r).drop "FTP download:".data.length) with
      | some g => rfl
      | none =>
        simp only
        obtain ⟨u, hu⟩ := List.isPrefixOf_iff_prefix.mp hp
        have hru : r = "TP download:".data ++ u := by
          have h2 := hu
          rw [show ("FTP download:".data ++ u)
              = 'F' :: ("TP download:".data ++ u) from rfl] at h2
          exact (List.cons_eq_cons.mp h2).2.symm
        have hu2 : (c :: r).drop "FTP download:".data.length = u := by
          rw [← hu, List.drop_left]
        rw [hu2] at hres
        rw [hru]
        exact searchCont_fFTI_none (fFTI_marker_tail hres)

theorem linesOf_cons (c : Char) (r : Str) :
    linesOf (c :: r)
      = if c = '\n' then [] :: linesOf r
        else match linesOf r with
          | [] => [[c]]
          | l :: ls => (c :: l) :: ls := rfl

theorem linesOf_append : ∀ {l : Str}, '\n' ∉ l → ∀ (t : Str),
    linesOf (l ++ '\n' :: t) = l :: linesOf t := by
  intro l
  induction l with
  | nil => intro _ t; rfl
  | cons c r ih =>
    intro hl t
    have hc : ¬(c = '\n') := fun h => hl (h ▸ List.mem_cons_self c r)
    have hr : '\n' ∉ r := fun h => hl (List.mem_cons_of_mem c h)
    rw [show ((c :: r) ++ '\n' :: t) = c :: (r ++ '\n' :: t) from rfl, linesOf_cons,
      ih hr t]
    simp [hc]

theorem linesOf_pure : ∀ {l : Str}, '\n' ∉ l → linesOf l = [l] := by
  intro l
  induction l with
  | nil => intro _; rfl
  | cons c r ih =>
    intro hl
    have hc : ¬(c = '\n') := fun h => hl (h ▸ List.mem_cons_self c r)
    have hr : '\n' ∉ r := fun h => hl (List.mem_cons_of_mem c h)
    rw [linesOf_cons, ih hr]
    simp [hc]

theorem dropWhile_cons_head {p : Char → Bool} : ∀ (s : Str) {d : Char} {u : Str},
    s.dropWhile p = d :: u → p d = false := by
  intro s
  induction s with
  | nil => intro d u h; simp at h
  | cons c r ih =>
    intro d u h
    rw [List.dropWhile_cons] at h
    split at h
    · exact ih h
    · rename_i hc
      obtain ⟨h1, h2⟩ := List.cons_eq_cons.mp h
      subst h1
      simpa using hc

theorem ftp_search_lines_aux : ∀ (n : Nat) (s : Str), s.length ≤ n →
    searchCont "FTP download:".data lineFtpScan s
      = match (linesOf s).filterMap specLineFtp with
        | g :: _ => some g
        | [] => none := by
  intro n
  induction n with
  | zero =>
    intro s hs
    have h0 : s = [] := List.length_eq_zero.mp (Nat.le_zero.mp hs)
    subst h0
    rfl
  | succ n ih =>
    intro s hs
    by_cases hnl : '\n' ∈ s
    · have hne : s.dropWhile (fun c => !(c = '\n')) ≠ [] := by
        intro h0
        have := List.dropWhile_eq_nil_iff.mp h0 '\n' hnl
        simp at this
      obtain ⟨d, u, hdu⟩ : ∃ d u, s.dropWhile (fun c => !(c = '\n')) = d :: u := by
        cases hd : s.dropWhile (fun c => !(c = '\n')) with
        | nil => exact absurd hd hne
        | cons d u => exact ⟨d, u, rfl⟩
      have hd : d = '\n' := by
        have := dropWhile_cons_head s hdu
        simpa using this
      subst hd
      have hdecomp : s = s.takeWhile (fun c => !(c = '\n')) ++ '\n' :: u := by
        conv_lhs => rw [← List.takeWhile_append_dropWhile (p := fun c => !(c = '\n')) (l := s)]
        rw [hdu]
      have hlnl : '\n' ∉ s.takeWhile (fun c => !(c = '\n')) := by
        intro h
        have := List.mem_takeWhile_imp h
        simp at this
      have hulen : u.length ≤ n := by
        have := congrArg List.length hdecomp
        simp only [List.length_append, List.length_cons] at this
        omega
      rw [hdecomp, ftp_search_split hlnl u, linesOf_append hlnl u, List.filterMap_cons,
        lineSearch_eq_spec]
      cases hsl : specLineFtp (s.takeWhile (fun c => !(c = '\n'))) with
      | some g => rfl
      | none =>
        simp only
        exact ih u hulen
    · rw [ftp_search_pure hnl, lineSearch_eq_spec, linesOf_pure hnl, List.filterMap_cons]
      cases specLineFtp s with
      | some g => rfl
      | none => rfl

theorem ftp_search_lines (s : Str) :
    searchCont "FTP download:".data lineFtpScan s
      = match (linesOf s).filterMap specLineFtp with
        | g :: _ => some g
        | [] => none :=
  ftp_search_lines_aux s.length s Nat.le.refl

theorem fFTI_some : ∀ {s g : Str}, firstFtpTokenIn s = some g →
    ∃ s', ftpTokenAt s' = some g := by
  intro s
  induction s with
  | nil => intro g h; simp [firstFtpTokenIn] at h
  | cons c r ih =>
    intro g h
    unfold firstFtpTokenIn at h
    cases hc : ftpTokenAt (c :: r) with
    | some t =>
      rw [hc] at h
      simp only [Option.some.injEq] at h
      subst h
      exact ⟨c :: r, hc⟩
    | none => rw [hc] at h; exact ih h

theorem specLineFtp_some {l g : Str} (h : specLineFtp l = some g) :
    ∃ s', firstFtpTokenIn s' = some g := by
  unfold specLineFtp at h
  split at h
  · exact ⟨_, h⟩
  · exact absurd h (by simp)

/-! ## Claim C4 (corrected) -/

/-- C4, counterexample: in the entry `"FTP download:\nftp://a"` the
first `ftp://`-token after the marker sits on the next line; the
spec's "found anywhere after the marker" rule yields `"ftp://a"`, but
the code extracts nothing — the lazy `.*?` of the pattern cannot cross
the newline, there being no `DOTALL` flag on this search. -/
theorem c4_counterexample :
    specFtpAnywhere "FTP download:\nftp://a".data = "ftp://a".data ∧
    (parse_gds_entry "FTP download:\nftp://a".data).ftp_url = [] := by
  constructor <;> decide

/-- C4, amended: for every entry text, the extracted ftp_url equals
the first substring starting with `ftp://` and continuing until
whitespace (at least one such character) that occurs after a
`FTP download:` marker on the same line as that marker — the first
line holding a marker-then-token pair decides the field — and the
empty string when no line has a token after a marker. -/
theorem c4_ftp_same_line (e : Str) :
    (parse_gds_entry e).ftp_url = specFtpSameLine e := by
  show groupStrip (searchCont "FTP download:".data lineFtpScan e) = specFtpSameLine e
  rw [ftp_search_lines e]
  unfold specFtpSameLine
  cases hm : (linesOf e).filterMap specLineFtp with
  | nil => rfl
  | cons g gs =>
    show pyStrip g = g
    have hmem : g ∈ (linesOf e).filterMap specLineFtp := by
      rw [hm]
      exact List.mem_cons_self g gs
    obtain ⟨l, _, hl⟩ := List.mem_filterMap.mp hmem
    obtain ⟨s1, h1⟩ := specLineFtp_some hl
    obtain ⟨s2, h2⟩ := fFTI_some h1
    refine pyStrip_eq_self ?_
    intro c hc
    have hall := List.all_eq_true.mp (ftpTokenAt_some h2) c hc
    simpa using hall
